import Mathlib

/-!
Verification of the state-transition solver (`solver.py`).

The program is a generic "river-crossing" solver: a state is a Python dict
mapping substate labels (bank names) to lists of item identifiers; a search
builds a tree of states, expanding each node through a transition generator
(move the facilitator plus up to `capacity` cargo items between the two
substates) filtered by a small regex-based boolean rule evaluator.

Embedding conventions:
- A Python dict is modelled as an association list `State` whose entry order
  is the dict's insertion order.  All states the program builds share the key
  order of the start state, so plain list equality coincides with Python dict
  equality on every comparison the program performs.
- Python exceptions are modelled with `Except PyErr`; each `raise` site of the
  source gets its own `PyErr` constructor.  `PyErr.outOfFuel` is a model
  artifact for the unbounded `while` loop and never corresponds to a Python
  behaviour: theorems about terminating runs supply enough fuel.
- `sorted` on a list of strings is modelled by insertion sort under the
  codepoint-lexicographic order `pyLe`, which is exactly Python's string
  order; both produce the unique stable ascending reordering.
- The two `re.search` patterns and the `re.findall` of `get_sub_rules` are
  modelled directly, character list by character list, including the
  leftmost-then-greedy backtracking semantics of the Python `re` module.
-/

namespace Solver

/-- The exceptions `solver.py` can raise, one constructor per raise site,
plus an out-of-fuel marker used only by the model for the unbounded loop. -/
inductive PyErr where
  /-- `get_source_sub_state`: `LookupError`, facilitator in no substate. -/
  | noSourceSubstate
  /-- `get_target_sub_state`: `LookupError`, every substate has the facilitator. -/
  | noTargetSubstate
  /-- `get_target_sub_state`: `LookupError`, more than one candidate target. -/
  | ambiguousTarget
  /-- dict lookup of a missing substate key (`KeyError`). -/
  | keyError
  /-- `list.remove` of an absent element (`ValueError`). -/
  | valueError
  /-- `SearchAlgorithm.__init__`: `ValueError`, unknown algorithm name. -/
  | unsupportedAlgorithm
  /-- `deque.popleft` from an empty deque (`IndexError`). -/
  | indexError
  /-- model artifact: recursion bound exhausted (not a Python behaviour). -/
  | outOfFuel
deriving DecidableEq

/-- Decidable equality for `Except`, so concrete runs can be settled by `decide`. -/
def exceptDecEq {ε α : Type} [DecidableEq ε] [DecidableEq α] :
    (a b : Except ε α) → Decidable (a = b)
  | .error x, .error y =>
    match decEq x y with
    | isTrue h => isTrue (by rw [h])
    | isFalse h => isFalse (fun hh => by cases hh; exact h rfl)
  | .error _, .ok _ => isFalse (fun hh => by cases hh)
  | .ok _, .error _ => isFalse (fun hh => by cases hh)
  | .ok x, .ok y =>
    match decEq x y with
    | isTrue h => isTrue (by rw [h])
    | isFalse h => isFalse (fun hh => by cases hh; exact h rfl)

instance {ε α : Type} [DecidableEq ε] [DecidableEq α] : DecidableEq (Except ε α) :=
  exceptDecEq

/-- A system state: a Python dict from substate label to list of item names,
as an association list in the dict's insertion order. -/
abbrev State := List (String × List String)

/-- Codepoint-lexicographic comparison of character lists: Python's string
order (`Char.toNat` is the Unicode codepoint, as Python's `ord`). -/
def lexLe : List Char → List Char → Bool
  | [], _ => true
  | _ :: _, [] => false
  | a :: as, b :: bs =>
    if a.toNat < b.toNat then true
    else if b.toNat < a.toNat then false
    else lexLe as bs

/-- Python's `<=` on strings. -/
def pyLe (a b : String) : Prop := lexLe a.data b.data = true

instance : DecidableRel pyLe := fun a b => by unfold pyLe; infer_instance

/-- Python's `sorted` on a list of strings. -/
def sortStrings (l : List String) : List String := List.insertionSort pyLe l

/-- Python dict read `st[k]`: value of the entry with key `k`, `KeyError` if absent. -/
def dictGetE (st : State) (k : String) : Except PyErr (List String) :=
  match st.find? (fun p => decide (p.1 = k)) with
  | some p => .ok p.2
  | none => .error .keyError

/-- Python dict write `st[k] = v` on a key that is present: replaces the value
of the entry with key `k`, leaving other entries unchanged. -/
def dictSet (st : State) (k : String) (v : List String) : State :=
  st.map (fun p => if p.1 = k then (k, v) else p)

/-- Python `l.remove(x)`: deletes the first occurrence, `ValueError` if absent. -/
def pyRemove (l : List String) (x : String) : Except PyErr (List String) :=
  if x ∈ l then .ok (l.erase x) else .error .valueError

/-- `get_source_sub_state` (solver.py:134-138): first substate whose item list
contains the facilitator; `LookupError` if none does.  (Iterating a dict's keys
and indexing back into the dict reads each entry's own value.) -/
def get_source_sub_state : State → String → Except PyErr String
  | [], _ => .error .noSourceSubstate
  | p :: rest, transition_facilitator =>
    if transition_facilitator ∈ p.2 then .ok p.1
    else get_source_sub_state rest transition_facilitator

/-- `get_target_sub_state` (solver.py:141-153): counts the substates lacking
the facilitator; 0 or more than 1 raise `LookupError`, otherwise the key of
the last (unique) lacking substate — the loop overwrites `return_state`. -/
def get_target_sub_state (current : State) (transition_facilitator : String) :
    Except PyErr String :=
  let lacking := current.filter (fun p => !(decide (transition_facilitator ∈ p.2)))
  if lacking.length = 0 then .error .noTargetSubstate
  else if 1 < lacking.length then .error .ambiguousTarget
  else .ok (lacking.getLastD ("", [])).1

/-- One iteration of the loop body of `get_new_state` (solver.py:158-160):
`new_state[target_tag].append(target); new_state[source_tag].remove(target)`. -/
def moveOne (st : State) (source_tag target_tag x : String) : Except PyErr State :=
  match dictGetE st target_tag with
  | .error e => .error e
  | .ok tl =>
    match dictGetE (dictSet st target_tag (tl ++ [x])) source_tag with
    | .error e => .error e
    | .ok sl =>
      match pyRemove sl x with
      | .error e => .error e
      | .ok sl1 => .ok (dictSet (dictSet st target_tag (tl ++ [x])) source_tag sl1)

/-- The `for target in targets` loop of `get_new_state`. -/
def moveItems (source_tag target_tag : String) : State → List String → Except PyErr State
  | st, [] => .ok st
  | st, x :: rest =>
    match moveOne st source_tag target_tag x with
    | .error e => .error e
    | .ok st1 => moveItems source_tag target_tag st1 rest

/-- `get_new_state` (solver.py:156-163): deep-copies the state, moves each of
`targets` from source to target substate, then sorts both item lists. -/
def get_new_state (source_state : State) (source_tag target_tag : String)
    (targets : List String) : Except PyErr State :=
  match moveItems source_tag target_tag source_state targets with
  | .error e => .error e
  | .ok st =>
    match dictGetE st target_tag with
    | .error e => .error e
    | .ok tl =>
      match dictGetE (dictSet st target_tag (sortStrings tl)) source_tag with
      | .error e => .error e
      | .ok sl => .ok (dictSet (dictSet st target_tag (sortStrings tl)) source_tag (sortStrings sl))

/-- `itertools.combinations(l, r)`: all `r`-element subsequences of `l`, in
lexicographic order of positions. -/
def combinations : List String → Nat → List (List String)
  | _, 0 => [[]]
  | [], _ + 1 => []
  | x :: xs, r + 1 =>
    (combinations xs r).map (fun c => x :: c) ++ combinations xs (r + 1)

/-- The regex character class `[\w!]`: word characters or a bang.  (`\w` is
ASCII `[A-Za-z0-9_]` for the program's ASCII rule strings.) -/
def isWordBang (c : Char) : Bool := c.isAlphanum || c = '_' || c = '!'

/-- The regex class `\s`: Python whitespace. -/
def pyIsSpace (c : Char) : Bool :=
  c = ' ' || c = '\t' || c = '\n' || c = '\r' || c = '\x0b' || c = '\x0c'

/-- `re.findall('\(.*?\)', s)`, with an explicit structural bound so the
kernel can evaluate it: scanning left to right, each match runs from an
unconsumed `(` to the nearest following `)` with no newline in between
(`.` does not match a newline); scanning resumes after each match.  Every
step strictly shrinks the list, so `fuel = l.length` always suffices and the
`0` case is only reached on the empty list. -/
def findallParenF : Nat → List Char → List String
  | _, [] => []
  | 0, _ :: _ => []
  | fuel + 1, c :: rest =>
    if c = '(' then
      match rest.drop (rest.takeWhile (fun ch => ch != ')' && ch != '\n')).length with
      | ')' :: after =>
        String.mk ('(' :: ((rest.takeWhile (fun ch => ch != ')' && ch != '\n')) ++ [')'])) ::
          findallParenF fuel after
      | _ => findallParenF fuel rest
    else findallParenF fuel rest

/-- `re.findall('\(.*?\)', s)` on a character list. -/
def findallParen (l : List Char) : List String := findallParenF l.length l

/-- `get_sub_rules` (solver.py:166-171): the set of `\(.*?\)` matches of every
suffix of `s`.  Python collects them in a `set` with unspecified iteration
order; the model fixes first-encounter order (all rules the program ships have
at most one parenthesised group at each level, where the order is irrelevant). -/
def get_sub_rules (s : String) : List String :=
  (((List.range s.length).map (fun start => findallParen (s.data.drop start))).flatten).dedup

/-- The part of `([\w!]+) AND ([\w!]+)` after group 1: the literal " AND "
followed by at least one `[\w!]` character (the start of greedy group 2). -/
def andTail (t : List Char) : Bool :=
  ([' ', 'A', 'N', 'D', ' ']).isPrefixOf t &&
    (match t.drop 5 with
     | c :: _ => isWordBang c
     | [] => false)

/-- Anchored match of `([\w!]+) AND ([\w!]+)` at the head of `l`.  Group 1 is
greedy with backtracking: the largest `k` not exceeding the leading `[\w!]`
run such that " AND " plus a word character follows; group 2 is the maximal
`[\w!]` run after the " AND ". -/
def matchAndAt (l : List Char) : Option (String × String) :=
  match ((List.range ((l.takeWhile isWordBang).length + 1)).filter
      (fun k => decide (1 ≤ k) && andTail (l.drop k))).getLast? with
  | some k =>
    some (String.mk (l.take k), String.mk ((l.drop (k + 5)).takeWhile isWordBang))
  | none => none

/-- `re.search('([\w!]+) AND ([\w!]+)', s)`: leftmost anchored match. -/
def searchAnd : List Char → Option (String × String)
  | [] => none
  | c :: rest =>
    match matchAndAt (c :: rest) with
    | some r => some r
    | none => searchAnd rest

/-- The part of `(\s+) OR (\s+)` after group 1: the literal " OR " followed by
at least one whitespace character (the start of greedy group 2). -/
def orTail (t : List Char) : Bool :=
  ([' ', 'O', 'R', ' ']).isPrefixOf t &&
    (match t.drop 4 with
     | c :: _ => pyIsSpace c
     | [] => false)

/-- Anchored match of `(\s+) OR (\s+)` at the head of `l`, greedy group 1 with
backtracking as in `matchAndAt`. -/
def matchOrAt (l : List Char) : Option (String × String) :=
  match ((List.range ((l.takeWhile pyIsSpace).length + 1)).filter
      (fun k => decide (1 ≤ k) && orTail (l.drop k))).getLast? with
  | some k =>
    some (String.mk (l.take k), String.mk ((l.drop (k + 4)).takeWhile pyIsSpace))
  | none => none

/-- `re.search('(\s+) OR (\s+)', s)`: leftmost anchored match. -/
def searchOr : List Char → Option (String × String)
  | [] => none
  | c :: rest =>
    match matchOrAt (c :: rest) with
    | some r => some r
    | none => searchOr rest

/-- `get_value` (solver.py:176-191): literals `True`/`False`, else membership
of the (possibly `!`-negated) token in the item list.  Python raises
`IndexError` on the empty string (`s[0]`); no caller passes one, since regex
groups from `+` quantifiers are nonempty — the model returns `false` there. -/
def get_value (s : String) (string_list : List String) : Bool :=
  if s = "True" then true
  else if s = "False" then false
  else
    match s.data with
    | [] => false
    | '!' :: rest => !(string_list.contains (String.mk rest))
    | _ :: _ => string_list.contains s

/-- Python's `str(result)` for a bool. -/
def pyStr (b : Bool) : String := if b then "True" else "False"

/-- Python's `sub_rule[1:-1]`. -/
def stripParens (s : String) : String := String.mk ((s.data.drop 1).dropLast)

/-- `evaluate_rule` (solver.py:195-215) with an explicit recursion bound.
Each recursive call is on `sub_rule[1:-1]`, at least two characters shorter
than `rule`, so `fuel = rule.length` always suffices; the `0` case is reached
only for the empty rule, where Python also returns `False`. -/
def evalRuleF : Nat → String → List String → Bool
  | 0, _, _ => false
  | fuel + 1, rule0, testlist =>
    let rule :=
      (get_sub_rules rule0).foldl
        (fun r sub => r.replace sub (pyStr (evalRuleF fuel (stripParens sub) testlist)))
        rule0
    match searchAnd rule.data with
    | some (g1, g2) => get_value g1 testlist && get_value g2 testlist
    | none =>
      match searchOr rule.data with
      | some (g1, g2) => get_value g1 testlist || get_value g2 testlist
      | none => false

/-- `evaluate_rule`: recursively substitute parenthesised sub-rules, then try
the AND clause, then the OR clause, else `False`. -/
def evaluate_rule (rule : String) (testlist : List String) : Bool :=
  evalRuleF rule.length rule testlist

/-- `state_is_allowed` (solver.py:218-223): no rule evaluates true against any
substate's item list. -/
def state_is_allowed (trial_state : State) (transition_rules : List String) : Bool :=
  trial_state.all (fun p => transition_rules.all (fun rule => !(evaluate_rule rule p.2)))

/-- The `for candidate in transition_candidates` loop of `form_transitions`:
build each trial state and keep it when all rules pass. -/
def formTrialStates (base : State) (source_tag target_tag : String)
    (transition_rules : List String) : List (List String) → Except PyErr (List State)
  | [] => .ok []
  | cand :: rest =>
    match get_new_state base source_tag target_tag cand with
    | .error e => .error e
    | .ok trial =>
      match formTrialStates base source_tag target_tag transition_rules rest with
      | .error e => .error e
      | .ok more => .ok (if state_is_allowed trial transition_rules then trial :: more else more)

/-- `form_transitions` (solver.py:226-237): move the facilitator, then try
every `capacity`-sized combination of the post-move source substate. -/
def form_transitions (current : State) (source_tag target_tag transition_facilitator : String)
    (capacity : Nat) (transition_rules : List String) : Except PyErr (List State) :=
  match get_new_state current source_tag target_tag [transition_facilitator] with
  | .error e => .error e
  | .ok base_new_state =>
    match dictGetE base_new_state source_tag with
    | .error e => .error e
    | .ok src =>
      formTrialStates base_new_state source_tag target_tag transition_rules
        (combinations src capacity)

/-- The `for step in range(0, max_capacity + 1)` loop of `form_new_states`
(extending only when the step found at least one state, as the source does). -/
def formAllCaps (this_state : State) (source target transition_facilitator : String)
    (transition_rules : List String) : List Nat → Except PyErr (List State)
  | [] => .ok []
  | step :: rest =>
    match form_transitions this_state source target transition_facilitator step
        transition_rules with
    | .error e => .error e
    | .ok found =>
      match formAllCaps this_state source target transition_facilitator transition_rules rest with
      | .error e => .error e
      | .ok more => .ok (if 0 < found.length then found ++ more else more)

/-- `form_new_states` (solver.py:240-251): the transition generator. -/
def form_new_states (this_state : State) (transition_facilitator : String)
    (max_capacity : Nat) (transition_rules : List String) : Except PyErr (List State) :=
  match get_source_sub_state this_state transition_facilitator with
  | .error e => .error e
  | .ok source =>
    match get_target_sub_state this_state transition_facilitator with
    | .error e => .error e
    | .ok target =>
      formAllCaps this_state source target transition_facilitator transition_rules
        (List.range (max_capacity + 1))

/-- `SearchTreeNode` (solver.py:15-21), arena-allocated: nodes are addressed
by allocation index, `parent`/`children` hold indices.  A child's parent is
always allocated before it, so parent indices decrease toward the root. -/
structure SearchNode where
  parent : Option Nat
  system_state : State
  children : List Nat
deriving DecidableEq

/-- Placeholder for out-of-range arena reads; never reached on indices the
search constructs (they are always in range). -/
def dummyNode : SearchNode := ⟨none, [], []⟩

/-- The `while node:` walk of `detect_loop` (solver.py:31-37).  Parent indices
strictly decrease, so `fuel = arena.length` always covers the whole chain. -/
def detectLoopAux (arena : List SearchNode) (new_state : State) :
    Nat → Option Nat → Bool
  | _, none => false
  | 0, some _ => false
  | fuel + 1, some i =>
    if new_state = (arena.getD i dummyNode).system_state then true
    else detectLoopAux arena new_state fuel (arena.getD i dummyNode).parent

/-- `detect_loop`: does `new_state` equal this node's or any ancestor's state? -/
def detect_loop (arena : List SearchNode) (node : Nat) (new_state : State) : Bool :=
  detectLoopAux arena new_state arena.length (some node)

/-- `is_child` (solver.py:23-27): does some existing child hold this state? -/
def is_child (arena : List SearchNode) (node : Nat) (state : State) : Bool :=
  (arena.getD node dummyNode).children.any
    (fun cid => decide ((arena.getD cid dummyNode).system_state = state))

/-- `self.children.append(new_node)`: record child index `nid` on node `pid`. -/
def appendChildIdx (arena : List SearchNode) (pid nid : Nat) : List SearchNode :=
  arena.set pid
    { arena.getD pid dummyNode with
      children := (arena.getD pid dummyNode).children ++ [nid] }

/-- `add_children` (solver.py:39-46): allocate a node for each candidate state
that neither loops against the ancestor chain nor duplicates an existing
child; returns the updated arena and the new indices in creation order. -/
def add_children (arena : List SearchNode) (pid : Nat) :
    List State → List SearchNode × List Nat
  | [] => (arena, [])
  | new_state :: rest =>
    if !(detect_loop arena pid new_state) && !(is_child arena pid new_state) then
      let arena1 := appendChildIdx (arena ++ [⟨some pid, new_state, []⟩]) pid arena.length
      let res := add_children arena1 pid rest
      (res.1, arena.length :: res.2)
    else add_children arena pid rest

/-- `SearchAlgorithm.__init__` (solver.py:51-59): validates the algorithm
name, then stores the string literal `"depth-first"` whatever the argument
was (line 55) — the accepted name is not recorded. -/
def mkSearchAlgorithm (algorithm_to_use : String) : Except PyErr String :=
  if algorithm_to_use ≠ "breadth-first" ∧ algorithm_to_use ≠ "depth-first" then
    .error .unsupportedAlgorithm
  else .ok "depth-first"

/-- `add_states_as_children` (solver.py:96-103): attach the candidates, then
push the newly created nodes onto the frontier — `deque.extendleft` (which
reverses) unless the stored algorithm is `"breadth-first"`, else `extend`. -/
def add_states_as_children (algorithm : String) (arena : List SearchNode)
    (to_visit : List Nat) (node : Nat) (children : List State) :
    List SearchNode × List Nat :=
  let res := add_children arena node children
  if algorithm ≠ "breadth-first" then (res.1, res.2.reverse ++ to_visit)
  else (res.1, to_visit ++ res.2)

/-- The guard `self._to_visit.count == 0` (solver.py:85): `count` is the bound
method object of the deque, never equal to `0`, so the comparison is always
`False` whatever the deque holds. -/
def to_visit_count_is_zero (_to_visit : List Nat) : Bool := false

/-- The `while node:` walk of `get_state_path` (solver.py:61-68), appending
states from the given node up to the root (terminal state first). -/
def getStatePathAux (arena : List SearchNode) : Nat → Option Nat → List State
  | _, none => []
  | 0, some _ => []
  | fuel + 1, some i =>
    (arena.getD i dummyNode).system_state ::
      getStatePathAux arena fuel (arena.getD i dummyNode).parent

/-- `get_state_path`: the state path from a node to the root, node first. -/
def get_state_path (arena : List SearchNode) (node : Nat) : List State :=
  getStatePathAux arena arena.length (some node)

/-- The `while current_node.system_state != target_state` loop of `search`
(solver.py:80-88).  `self._visited` is written each iteration but never read,
so the model does not carry it.  The `break` branch reproduces the broken
emptiness guard (`to_visit_count_is_zero`); when the frontier really is empty
the `popleft` raises `IndexError`. -/
def searchLoop (algorithm : String) (target_state : State) (transition_facilitator : String)
    (max_transition_capacity : Nat) (disallowed_transition_rules : List String) :
    Nat → List SearchNode → List Nat → Nat →
    Except PyErr (List SearchNode × List Nat × Nat)
  | 0, arena, to_visit, current =>
    if (arena.getD current dummyNode).system_state = target_state then
      .ok (arena, to_visit, current)
    else .error .outOfFuel
  | fuel + 1, arena, to_visit, current =>
    if (arena.getD current dummyNode).system_state = target_state then
      .ok (arena, to_visit, current)
    else
      match form_new_states (arena.getD current dummyNode).system_state
          transition_facilitator max_transition_capacity disallowed_transition_rules with
      | .error e => .error e
      | .ok new_states =>
        let res := add_states_as_children algorithm arena to_visit current new_states
        if to_visit_count_is_zero res.2 then
          .ok (res.1, res.2, current)
        else
          match res.2 with
          | [] => .error .indexError
          | next :: rest =>
            searchLoop algorithm target_state transition_facilitator max_transition_capacity
              disallowed_transition_rules fuel res.1 rest next

/-- `SearchAlgorithm.search` (solver.py:71-94): root the tree at the start
state, seed the frontier with the root, run the loop, and on goal return the
node-to-root state path (`None` on the never-taken `break` exit). -/
def search (algorithm : String) (start_state target_state : State)
    (transition_facilitator : String) (max_transition_capacity : Nat)
    (disallowed_transition_rules : List String) (fuel : Nat) :
    Except PyErr (Option (List State)) :=
  match searchLoop algorithm target_state transition_facilitator
      max_transition_capacity disallowed_transition_rules fuel
      [⟨none, start_state, []⟩] [0] 0 with
  | .error e => .error e
  | .ok res =>
    if (res.1.getD res.2.2 dummyNode).system_state = target_state then
      .ok (some (get_state_path res.1 res.2.2))
    else
      .ok none

/-- The keys of a state, in entry order. -/
def keysOf (st : State) : List String := st.map Prod.fst

/-- The multiset union of the items of all substates. -/
def stateItems (st : State) : Multiset String :=
  ((st.map (fun p => ((p.2 : List String) : Multiset String))).sum)

/-- Structural invariant of the search tree arena: the root is node `0`,
holds the start state and has no parent; every other node has an earlier
parent and a state that passed the rule filter. -/
def TreeInv (start : State) (rules : List String) (arena : List SearchNode) : Prop :=
  arena ≠ [] ∧
  (arena.getD 0 dummyNode).parent = none ∧
  (arena.getD 0 dummyNode).system_state = start ∧
  ∀ i, 0 < i → i < arena.length →
    (∃ j, j < i ∧ (arena.getD i dummyNode).parent = some j) ∧
    state_is_allowed (arena.getD i dummyNode).system_state rules = true

/-- The frontier and the current node only address allocated nodes. -/
def FrontierInv (arena : List SearchNode) (to_visit : List Nat) (current : Nat) : Prop :=
  current < arena.length ∧ ∀ x ∈ to_visit, x < arena.length

/-- Concrete two-substate states used by the concrete-run theorems. -/
def stBoat1 : State := [("bank1", ["boat"]), ("bank2", [])]

/-- `stBoat1` after the boat crosses. -/
def stBoat2 : State := [("bank1", []), ("bank2", ["boat"])]

/-- A goal state no transition sequence from `stBoat1` can reach. -/
def stUnreachable : State := [("bank1", ["x"]), ("bank2", [])]

/-- Arena after rooting a search at `stBoat1`. -/
def arenaA : List SearchNode := [⟨none, stBoat1, []⟩]

/-- `arenaA` after the root's one child (the crossed state) is attached. -/
def arenaB : List SearchNode := [⟨none, stBoat1, [1]⟩, ⟨some 0, stBoat2, []⟩]

/-!  Theorems. -/

/-- Exiting the loop: when the current node already holds the target state the
loop stops at once with the current frontier and node, whatever the fuel. -/
theorem searchLoop_found (alg : String) (target : State) (fac : String) (cap : Nat)
    (rules : List String) (fuel : Nat) (arena : List SearchNode) (tv : List Nat) (cur : Nat)
    (heq : (arena.getD cur dummyNode).system_state = target) :
    searchLoop alg target fac cap rules fuel arena tv cur = .ok (arena, tv, cur) := by
  cases fuel with
  | zero => rw [searchLoop, if_pos heq]
  | succ n => rw [searchLoop, if_pos heq]

/-- One full loop iteration: expand the current node, push its new children,
pop the next node.  The broken emptiness guard is always false, so the pop
always happens. -/
theorem searchLoop_step (alg : String) (target : State) (fac : String) (cap : Nat)
    (rules : List String) (fuel : Nat) (arena arena' : List SearchNode)
    (tv : List Nat) (cur next : Nat) (rest : List Nat) (ns : List State)
    (hne : ¬((arena.getD cur dummyNode).system_state = target))
    (hfns : form_new_states (arena.getD cur dummyNode).system_state fac cap rules = .ok ns)
    (hadd : add_states_as_children alg arena tv cur ns = (arena', next :: rest)) :
    searchLoop alg target fac cap rules (fuel + 1) arena tv cur =
      searchLoop alg target fac cap rules fuel arena' rest next := by
  rw [searchLoop, if_neg hne]
  rw [hfns]
  dsimp only
  rw [hadd]
  rfl

/-- A loop iteration that leaves the frontier empty: `popleft` raises
`IndexError` because the emptiness guard compares a bound method with `0`. -/
theorem searchLoop_empty_pop (alg : String) (target : State) (fac : String) (cap : Nat)
    (rules : List String) (fuel : Nat) (arena arena' : List SearchNode)
    (tv : List Nat) (cur : Nat) (ns : List State)
    (hne : ¬((arena.getD cur dummyNode).system_state = target))
    (hfns : form_new_states (arena.getD cur dummyNode).system_state fac cap rules = .ok ns)
    (hadd : add_states_as_children alg arena tv cur ns = (arena', [])) :
    searchLoop alg target fac cap rules (fuel + 1) arena tv cur = .error .indexError := by
  rw [searchLoop, if_neg hne]
  rw [hfns]
  dsimp only
  rw [hadd]
  rfl

/-- C1: the claim says an exhausted reachable state space makes `search`
return the explicit not-found `None` with the frontier's emptiness detected
before each pop.  In the code the guard `self._to_visit.count == 0` compares
the deque's bound `count` method with `0`, which is always false, so the loop
never breaks and the `popleft()` on the empty frontier raises `IndexError`:
on a start whose two reachable states exclude the goal, `search` raises
instead of returning `None`. -/
theorem search_exhaustion_raises_index_error :
    search "depth-first" stBoat1 stUnreachable "boat" 0 [] 10 = .error .indexError := by
  have s1 : searchLoop "depth-first" stUnreachable "boat" 0 [] 10 arenaA [0] 0 =
      searchLoop "depth-first" stUnreachable "boat" 0 [] 9 arenaB [0] 1 :=
    searchLoop_step _ _ _ _ _ _ _ _ _ _ _ _ [stBoat2] (by decide) (by decide) (by decide)
  have s2 : searchLoop "depth-first" stUnreachable "boat" 0 [] 9 arenaB [0] 1 =
      searchLoop "depth-first" stUnreachable "boat" 0 [] 8 arenaB [] 0 :=
    searchLoop_step _ _ _ _ _ _ _ _ _ _ _ _ [stBoat1] (by decide) (by decide) (by decide)
  have s3 : searchLoop "depth-first" stUnreachable "boat" 0 [] 8 arenaB [] 0 =
      .error .indexError :=
    searchLoop_empty_pop _ _ _ _ _ _ _ arenaB _ _ [stBoat2] (by decide) (by decide) (by decide)
  rw [search]
  rw [show ([⟨none, stBoat1, []⟩] : List SearchNode) = arenaA from rfl]
  rw [s1, s2, s3]

/-- C2: the claim says a `SearchAlgorithm` constructed with "breadth-first"
appends new children at the back of the frontier and that the constructed
kind is never silently replaced by a default.  The constructor (solver.py:55)
stores the literal `"depth-first"` for every accepted argument, and with that
stored kind `add_states_as_children` pushes the new child onto the FRONT of
the frontier (`[1, 0]`, not `[0, 1]`). -/
theorem breadth_first_construction_prepends_frontier :
    mkSearchAlgorithm "breadth-first" = .ok "depth-first" ∧
    (add_states_as_children "depth-first" [⟨none, stBoat1, []⟩] [0] 0 [stBoat2]).2 =
      [1, 0] := by constructor <;> decide

/-- C3 counterexample: the claim says a successful search returns the path
with the start state first and the goal state last.  On the one-transition
crossing the returned path is `[goal, start]`: its first element is the goal,
and the goal differs from the start. -/
theorem search_path_starts_with_goal_not_start :
    search "depth-first" stBoat1 stBoat2 "boat" 0 [] 10 =
      .ok (some [stBoat2, stBoat1]) ∧ stBoat2 ≠ stBoat1 := by
  constructor
  · have s1 : searchLoop "depth-first" stBoat2 "boat" 0 [] 10 arenaA [0] 0 =
        searchLoop "depth-first" stBoat2 "boat" 0 [] 9 arenaB [0] 1 :=
      searchLoop_step _ _ _ _ _ _ _ _ _ _ _ _ [stBoat2] (by decide) (by decide) (by decide)
    have s2 : searchLoop "depth-first" stBoat2 "boat" 0 [] 9 arenaB [0] 1 =
        .ok (arenaB, [0], 1) :=
      searchLoop_found _ _ _ _ _ _ _ _ _ (by decide)
    rw [search]
    rw [show ([⟨none, stBoat1, []⟩] : List SearchNode) = arenaA from rfl]
    rw [s1, s2]
    decide
  · decide

/-- C7: when the start state equals the goal state, `search` immediately
returns the one-element path `[start]` — for EVERY algorithm string,
facilitator, capacity, rule list and fuel, including inputs on which the
transition generator would raise, which shows the generator is never
invoked. -/
theorem search_start_eq_goal_single_path (algorithm : String) (start : State)
    (transition_facilitator : String) (max_transition_capacity : Nat)
    (disallowed_transition_rules : List String) (fuel : Nat) :
    search algorithm start start transition_facilitator max_transition_capacity
      disallowed_transition_rules fuel = .ok (some [start]) := by
  rw [search]
  rw [searchLoop_found _ _ _ _ _ _ _ _ _ (by simp [dummyNode])]
  simp [get_state_path, getStatePathAux, dummyNode]

/-- C4 counterexample: the claim says `a OR b` evaluates as the boolean
disjunction of the operands — e.g. `"True OR False"` is true for every item
set, and `"x OR y"` is true when `x` is in the set.  In the code the OR
pattern is `(\s+) OR (\s+)`, whose operand groups match only whitespace, so
both rules fall through every clause and evaluate to `false`. -/
theorem or_rule_literal_operands_false_counterexample :
    evaluate_rule "True OR False" [] = false ∧
    evaluate_rule "x OR y" ["x", "y"] = false := by constructor <;> decide

/-- C10 counterexample: the claim says any rule without a top-level
`X AND Y` pattern evaluates to false for every item set.  The rule
`"  OR  "` contains no AND, yet the whitespace-operand OR pattern matches it,
and with the one-space string itself in the item set both operands test true:
the rule evaluates to `true`. -/
theorem whitespace_or_rule_true_counterexample :
    evaluate_rule "  OR  " [" "] = true := by decide

/-- C5 counterexample: the claim says every state attached to the tree,
including the root, makes every configured rule false on all its substates.
The root is attached without any rule check: with the always-true rule
`"True AND True"` the search still roots the tree at the start state and
succeeds (start = goal here), while the rule evaluates true against the
root's own substate items. -/
theorem root_attached_despite_rule_violation :
    search "depth-first" stBoat1 stBoat1 "boat" 1 ["True AND True"] 5 =
      .ok (some [stBoat1]) ∧
    evaluate_rule "True AND True" ["boat"] = true := by
  constructor
  · rw [search]
    rw [searchLoop_found _ _ _ _ _ _ _ _ _ (by decide)]
    decide
  · decide

/-- C9: for every three-substate state in which exactly one substate contains
the facilitator (so two lack it), the transition generator fails with the
ambiguous-target error before producing any candidate: `get_target_sub_state`
counts two substates lacking the facilitator and raises, and
`form_new_states` propagates the error before forming any transition. -/
theorem three_substates_ambiguous_target
    (k1 k2 k3 transition_facilitator : String) (l1 l2 l3 : List String)
    (max_capacity : Nat) (transition_rules : List String)
    (hk12 : k1 ≠ k2) (hk13 : k1 ≠ k3) (hk23 : k2 ≠ k3)
    (hone : (transition_facilitator ∈ l1 ∧ transition_facilitator ∉ l2 ∧
              transition_facilitator ∉ l3) ∨
            (transition_facilitator ∉ l1 ∧ transition_facilitator ∈ l2 ∧
              transition_facilitator ∉ l3) ∨
            (transition_facilitator ∉ l1 ∧ transition_facilitator ∉ l2 ∧
              transition_facilitator ∈ l3)) :
    form_new_states [(k1, l1), (k2, l2), (k3, l3)] transition_facilitator max_capacity
      transition_rules = .error .ambiguousTarget := by
  rcases hone with ⟨h1, h2, h3⟩ | ⟨h1, h2, h3⟩ | ⟨h1, h2, h3⟩ <;>
    simp [form_new_states, get_source_sub_state, get_target_sub_state, h1, h2, h3]

theorem three_substates_ambiguous_target_witness :
    form_new_states [("a", ["f"]), ("b", []), ("c", [])] "f" 1 [] =
      .error .ambiguousTarget :=
  three_substates_ambiguous_target "a" "b" "c" "f" ["f"] [] [] 1 []
    (by decide) (by decide) (by decide) (Or.inl (by decide))

theorem lexLe_total : ∀ a b : List Char, lexLe a b = true ∨ lexLe b a = true
  | [], _ => Or.inl rfl
  | _ :: _, [] => Or.inr rfl
  | a :: as, b :: bs => by
    rcases Nat.lt_trichotomy a.toNat b.toNat with h | h | h
    · left; simp [lexLe, h]
    · rcases lexLe_total as bs with ih | ih
      · left; simp [lexLe, h, ih]
      · right; simp [lexLe, h.symm, ih]
    · right; simp [lexLe, h]

theorem lexLe_trans : ∀ a b c : List Char,
    lexLe a b = true → lexLe b c = true → lexLe a c = true
  | [], _, _, _, _ => rfl
  | _ :: _, [], _, hab, _ => by simp [lexLe] at hab
  | _ :: _, _ :: _, [], _, hbc => by simp [lexLe] at hbc
  | a :: as, b :: bs, c :: cs, hab, hbc => by
    by_cases h1 : a.toNat < b.toNat
    · by_cases h2 : b.toNat < c.toNat
      · simp [lexLe, Nat.lt_trans h1 h2]
      · by_cases h3 : c.toNat < b.toNat
        · simp [lexLe, h2, h3] at hbc
        · have : a.toNat < c.toNat := by omega
          simp [lexLe, this]
    · by_cases h1' : b.toNat < a.toNat
      · simp [lexLe, h1, h1'] at hab
      · have hab' : lexLe as bs = true := by simpa [lexLe, h1, h1'] using hab
        by_cases h2 : b.toNat < c.toNat
        · have : a.toNat < c.toNat := by omega
          simp [lexLe, this]
        · by_cases h3 : c.toNat < b.toNat
          · simp [lexLe, h2, h3] at hbc
          · have hbc' : lexLe bs cs = true := by simpa [lexLe, h2, h3] using hbc
            have hac1 : ¬(a.toNat < c.toNat) := by omega
            have hac2 : ¬(c.toNat < a.toNat) := by omega
            simp [lexLe, hac1, hac2]
            exact lexLe_trans as bs cs hab' hbc'

instance : IsTotal String pyLe := ⟨fun a b => lexLe_total a.data b.data⟩

instance : IsTrans String pyLe := ⟨fun _ _ _ hab hbc => lexLe_trans _ _ _ hab hbc⟩

theorem sortStrings_idem (l : List String) : sortStrings (sortStrings l) = sortStrings l :=
  List.Sorted.insertionSort_eq (List.sorted_insertionSort pyLe l)
/-- C8: for every two-substate state whose facilitator sits in exactly one
substate, the transition generator called with capacity 0 returns exactly one
candidate state — the one obtained by moving only the facilitator to the
other substate (both item lists re-sorted) — provided that candidate
satisfies all configured rules. -/
theorem capacity_zero_single_candidate
    (t1 t2 transition_facilitator : String) (l1 l2 : List String)
    (transition_rules : List String) (hne : t1 ≠ t2)
    (hfac : (transition_facilitator ∈ l1 ∧ transition_facilitator ∉ l2) ∨
            (transition_facilitator ∉ l1 ∧ transition_facilitator ∈ l2))
    (moved : State)
    (hmoved : moved = if transition_facilitator ∈ l1 then
        [(t1, sortStrings (l1.erase transition_facilitator)),
         (t2, sortStrings (l2 ++ [transition_facilitator]))]
      else
        [(t1, sortStrings (l1 ++ [transition_facilitator])),
         (t2, sortStrings (l2.erase transition_facilitator))])
    (hallowed : state_is_allowed moved transition_rules = true) :
    form_new_states [(t1, l1), (t2, l2)] transition_facilitator 0 transition_rules =
      .ok [moved] := by
  subst hmoved
  rcases hfac with ⟨h1, h2⟩ | ⟨h1, h2⟩
  · rw [if_pos h1] at hallowed ⊢
    simp [form_new_states, get_source_sub_state, get_target_sub_state, formAllCaps,
      form_transitions, get_new_state, moveItems, moveOne, dictGetE, dictSet, pyRemove,
      combinations, formTrialStates, h1, h2, hne, Ne.symm hne, sortStrings_idem, hallowed,
      List.find?, List.filter, List.getLastD]
  · rw [if_neg h1] at hallowed ⊢
    simp [form_new_states, get_source_sub_state, get_target_sub_state, formAllCaps,
      form_transitions, get_new_state, moveItems, moveOne, dictGetE, dictSet, pyRemove,
      combinations, formTrialStates, h1, h2, hne, Ne.symm hne, sortStrings_idem, hallowed,
      List.find?, List.filter, List.getLastD]

theorem sortStrings_perm (l : List String) : List.Perm (sortStrings l) l :=
  List.perm_insertionSort pyLe l

theorem sortStrings_coe (l : List String) :
    ((sortStrings l : List String) : Multiset String) = (l : Multiset String) :=
  Multiset.coe_eq_coe.mpr (sortStrings_perm l)

theorem stateItems_cons (p : String × List String) (st : State) :
    stateItems (p :: st) = (p.2 : Multiset String) + stateItems st := by
  simp [stateItems]

theorem keysOf_dictSet (st : State) (k : String) (v : List String) :
    keysOf (dictSet st k v) = keysOf st := by
  unfold keysOf dictSet
  rw [List.map_map]
  apply List.map_congr_left
  intro p _
  by_cases h : p.1 = k <;> simp [h]

theorem dictSet_eq_of_absent (st : State) (k : String) (v : List String)
    (h : ∀ p ∈ st, p.1 ≠ k) : dictSet st k v = st := by
  induction st with
  | nil => rfl
  | cons p rest ih =>
    unfold dictSet
    simp only [List.map_cons]
    rw [if_neg (h p (List.mem_cons_self p rest))]
    have := ih (fun q hq => h q (List.mem_cons_of_mem p hq))
    unfold dictSet at this
    rw [this]

theorem stateItems_dictSet_add (st : State) (k : String) (v w : List String)
    (hnd : (keysOf st).Nodup) (hget : dictGetE st k = .ok v) :
    stateItems (dictSet st k w) + (v : Multiset String) =
      stateItems st + (w : Multiset String) := by
  induction st with
  | nil => simp [dictGetE, List.find?] at hget
  | cons p rest ih =>
    rw [keysOf, List.map_cons, List.nodup_cons] at hnd
    by_cases h : p.1 = k
    · have hv : v = p.2 := by
        simp [dictGetE, List.find?, h] at hget
        exact hget.symm
      have hrest : ∀ q ∈ rest, q.1 ≠ k := by
        intro q hq
        intro hqk
        exact hnd.1 (h ▸ hqk ▸ List.mem_map_of_mem Prod.fst hq)
      unfold dictSet
      simp only [List.map_cons]
      rw [if_pos h]
      have hrw : rest.map (fun p => if p.1 = k then (k, w) else p) = rest :=
        dictSet_eq_of_absent rest k w hrest
      rw [hrw, stateItems_cons, stateItems_cons, hv]
      abel
    · have hget' : dictGetE rest k = .ok v := by
        simpa [dictGetE, List.find?, h] using hget
      have := ih hnd.2 hget'
      unfold dictSet
      simp only [List.map_cons]
      rw [if_neg h]
      rw [stateItems_cons, stateItems_cons]
      unfold dictSet at this
      rw [add_assoc, this, ← add_assoc]


theorem coe_append_multiset (l1 l2 : List String) :
    ((l1 ++ l2 : List String) : Multiset String) =
      (l1 : Multiset String) + (l2 : Multiset String) := by
  simp

theorem pyRemove_ok (l : List String) (x : String) (l' : List String)
    (h : pyRemove l x = .ok l') :
    (l : Multiset String) = (l' : Multiset String) + ({x} : Multiset String) := by
  unfold pyRemove at h
  by_cases hx : x ∈ l
  · rw [if_pos hx] at h
    cases h
    have hp := List.perm_cons_erase hx
    calc (l : Multiset String)
        = ((x :: l.erase x : List String) : Multiset String) := Multiset.coe_eq_coe.mpr hp
      _ = x ::ₘ ((l.erase x : List String) : Multiset String) := by
          rw [Multiset.cons_coe]
      _ = ((l.erase x : List String) : Multiset String) + ({x} : Multiset String) := by
          rw [add_comm, Multiset.singleton_add]
  · rw [if_neg hx] at h
    cases h

theorem moveOne_conserves (st : State) (s t x : String) (st' : State)
    (hnd : (keysOf st).Nodup) (h : moveOne st s t x = .ok st') :
    stateItems st' = stateItems st ∧ keysOf st' = keysOf st := by
  unfold moveOne at h
  cases hg1 : dictGetE st t with
  | error e => simp only [hg1] at h; cases h
  | ok tl =>
    simp only [hg1] at h
    cases hg2 : dictGetE (dictSet st t (tl ++ [x])) s with
    | error e => simp only [hg2] at h; cases h
    | ok sl =>
      simp only [hg2] at h
      cases hr : pyRemove sl x with
      | error e => simp only [hr] at h; cases h
      | ok sl1 =>
        simp only [hr] at h
        cases h
        have hnd1 : (keysOf (dictSet st t (tl ++ [x]))).Nodup := by
          rw [keysOf_dictSet]; exact hnd
        have e1 := stateItems_dictSet_add st t tl (tl ++ [x]) hnd hg1
        have e2 := stateItems_dictSet_add (dictSet st t (tl ++ [x])) s sl sl1 hnd1 hg2
        have hsl := pyRemove_ok sl x sl1 hr
        refine ⟨?_, by rw [keysOf_dictSet, keysOf_dictSet]⟩
        have e1' : stateItems (dictSet st t (tl ++ [x])) =
            stateItems st + ({x} : Multiset String) := by
          have step : stateItems (dictSet st t (tl ++ [x])) + (tl : Multiset String) =
              stateItems st + ({x} : Multiset String) + (tl : Multiset String) := by
            rw [e1, coe_append_multiset]
            have : ((([x] : List String)) : Multiset String) = ({x} : Multiset String) := by
              simp
            rw [this]
            abel
          exact add_right_cancel step
        have key : stateItems (dictSet (dictSet st t (tl ++ [x])) s sl1) +
            (sl : Multiset String) = stateItems st + (sl : Multiset String) := by
          rw [e2, e1', hsl]
          abel
        exact add_right_cancel key


theorem moveItems_conserves (s t : String) :
    ∀ (targets : List String) (st st' : State),
    (keysOf st).Nodup → moveItems s t st targets = .ok st' →
    stateItems st' = stateItems st ∧ keysOf st' = keysOf st
  | [], st, st', _, h => by cases h; exact ⟨rfl, rfl⟩
  | x :: rest, st, st', hnd, h => by
    unfold moveItems at h
    cases h1 : moveOne st s t x with
    | error e => simp only [h1] at h; cases h
    | ok st1 =>
      simp only [h1] at h
      have c1 := moveOne_conserves st s t x st1 hnd h1
      have hnd1 : (keysOf st1).Nodup := c1.2 ▸ hnd
      have c2 := moveItems_conserves s t rest st1 st' hnd1 h
      exact ⟨c2.1.trans c1.1, c2.2.trans c1.2⟩

theorem dictGetE_dictSet_conserves (st : State) (k : String) (v : List String)
    (hnd : (keysOf st).Nodup) (hget : dictGetE st k = .ok v) :
    stateItems (dictSet st k (sortStrings v)) = stateItems st := by
  have e := stateItems_dictSet_add st k v (sortStrings v) hnd hget
  rw [sortStrings_coe] at e
  have e' : stateItems (dictSet st k (sortStrings v)) + (v : Multiset String) =
      stateItems st + (v : Multiset String) := e
  exact add_right_cancel e'

theorem get_new_state_conserves (st : State) (s t : String) (targets : List String)
    (st' : State) (hnd : (keysOf st).Nodup) (h : get_new_state st s t targets = .ok st') :
    stateItems st' = stateItems st ∧ keysOf st' = keysOf st := by
  unfold get_new_state at h
  cases h1 : moveItems s t st targets with
  | error e => simp only [h1] at h; cases h
  | ok st1 =>
    simp only [h1] at h
    have c1 := moveItems_conserves s t targets st st1 hnd h1
    have hnd1 : (keysOf st1).Nodup := c1.2 ▸ hnd
    cases h2 : dictGetE st1 t with
    | error e => simp only [h2] at h; cases h
    | ok tl =>
      simp only [h2] at h
      have hnd2 : (keysOf (dictSet st1 t (sortStrings tl))).Nodup := by
        rw [keysOf_dictSet]; exact hnd1
      cases h3 : dictGetE (dictSet st1 t (sortStrings tl)) s with
      | error e => simp only [h3] at h; cases h
      | ok sl =>
        simp only [h3] at h
        cases h
        constructor
        · rw [dictGetE_dictSet_conserves _ _ _ hnd2 h3,
            dictGetE_dictSet_conserves _ _ _ hnd1 h2]
          exact c1.1
        · rw [keysOf_dictSet, keysOf_dictSet]
          exact c1.2

theorem formTrialStates_mem (base : State) (s t : String) (rules : List String) :
    ∀ (cands : List (List String)) (l : List State) (st' : State),
    formTrialStates base s t rules cands = .ok l → st' ∈ l →
    state_is_allowed st' rules = true ∧
      ∃ cand, get_new_state base s t cand = .ok st'
  | [], l, st', h, hmem => by cases h; cases hmem
  | cand :: rest, l, st', h, hmem => by
    unfold formTrialStates at h
    cases h1 : get_new_state base s t cand with
    | error e => simp only [h1] at h; cases h
    | ok trial =>
      simp only [h1] at h
      cases h2 : formTrialStates base s t rules rest with
      | error e => simp only [h2] at h; cases h
      | ok more =>
        simp only [h2] at h
        cases h
        by_cases ha : state_is_allowed trial rules = true
        · rw [if_pos ha] at hmem
          rcases List.mem_cons.mp hmem with heq | hmem'
          · subst heq
            exact ⟨ha, cand, h1⟩
          · exact formTrialStates_mem base s t rules rest more st' h2 hmem'
        · rw [if_neg ha] at hmem
          exact formTrialStates_mem base s t rules rest more st' h2 hmem

theorem form_transitions_mem (current : State) (s t fac : String) (cap : Nat)
    (rules : List String) (l : List State) (st' : State)
    (hnd : (keysOf current).Nodup)
    (h : form_transitions current s t fac cap rules = .ok l) (hmem : st' ∈ l) :
    state_is_allowed st' rules = true ∧ stateItems st' = stateItems current := by
  unfold form_transitions at h
  cases h1 : get_new_state current s t [fac] with
  | error e => simp only [h1] at h; cases h
  | ok base =>
    simp only [h1] at h
    have c1 := get_new_state_conserves current s t [fac] base hnd h1
    have hndb : (keysOf base).Nodup := c1.2 ▸ hnd
    cases h2 : dictGetE base s with
    | error e => simp only [h2] at h; cases h
    | ok src =>
      simp only [h2] at h
      have c2 := formTrialStates_mem base s t rules (combinations src cap) l st' h hmem
      rcases c2 with ⟨hallow, cand, hc⟩
      have c3 := get_new_state_conserves base s t cand st' hndb hc
      exact ⟨hallow, c3.1.trans c1.1⟩

theorem formAllCaps_mem (st : State) (s t fac : String) (rules : List String) :
    ∀ (steps : List Nat) (l : List State) (st' : State),
    (keysOf st).Nodup → formAllCaps st s t fac rules steps = .ok l → st' ∈ l →
    state_is_allowed st' rules = true ∧ stateItems st' = stateItems st
  | [], l, st', _, h, hmem => by cases h; cases hmem
  | step :: rest, l, st', hnd, h, hmem => by
    unfold formAllCaps at h
    cases h1 : form_transitions st s t fac step rules with
    | error e => simp only [h1] at h; cases h
    | ok found =>
      simp only [h1] at h
      cases h2 : formAllCaps st s t fac rules rest with
      | error e => simp only [h2] at h; cases h
      | ok more =>
        simp only [h2] at h
        cases h
        by_cases hl : 0 < found.length
        · rw [if_pos hl] at hmem
          rcases List.mem_append.mp hmem with hm | hm
          · exact form_transitions_mem st s t fac step rules found st' hnd h1 hm
          · exact formAllCaps_mem st s t fac rules rest more st' hnd h2 hm
        · rw [if_neg hl] at hmem
          exact formAllCaps_mem st s t fac rules rest more st' hnd h2 hmem

theorem form_new_states_mem (st : State) (fac : String) (cap : Nat)
    (rules : List String) (l : List State) (st' : State)
    (hnd : (keysOf st).Nodup)
    (h : form_new_states st fac cap rules = .ok l) (hmem : st' ∈ l) :
    state_is_allowed st' rules = true ∧ stateItems st' = stateItems st := by
  unfold form_new_states at h
  cases h1 : get_source_sub_state st fac with
  | error e => simp only [h1] at h; cases h
  | ok source =>
    simp only [h1] at h
    cases h2 : get_target_sub_state st fac with
    | error e => simp only [h2] at h; cases h
    | ok target =>
      simp only [h2] at h
      exact formAllCaps_mem st source target fac rules (List.range (cap + 1)) l st' hnd h hmem


/-- C6: for every two-substate state containing the facilitator (with the
distinct keys every Python dict has), every state the transition generator
returns has the same multiset union of items across its substates as the
input state: no item is created, destroyed, or duplicated. -/
theorem form_new_states_conserves_items
    (this_state : State) (transition_facilitator : String) (max_capacity : Nat)
    (transition_rules : List String) (new_states : List State) (s : State)
    (hkeys : (keysOf this_state).Nodup)
    (hlen : this_state.length = 2)
    (hfac : ∃ p ∈ this_state, transition_facilitator ∈ p.2)
    (hok : form_new_states this_state transition_facilitator max_capacity
      transition_rules = .ok new_states)
    (hmem : s ∈ new_states) :
    stateItems s = stateItems this_state :=
  (form_new_states_mem this_state transition_facilitator max_capacity transition_rules
    new_states s hkeys hok hmem).2

theorem form_new_states_conserves_items_witness :
    stateItems [("bank1", ["fox"]), ("bank2", ["boat"])] =
      stateItems [("bank1", ["boat", "fox"]), ("bank2", [])] :=
  form_new_states_conserves_items [("bank1", ["boat", "fox"]), ("bank2", [])] "boat" 1 []
    [[("bank1", ["fox"]), ("bank2", ["boat"])], [("bank1", []), ("bank2", ["boat", "fox"])]]
    [("bank1", ["fox"]), ("bank2", ["boat"])]
    (by decide) (by decide) (by decide) (by decide) (by decide)

-- getD plumbing for the arena lemmas
theorem getD_append_lt (l m : List SearchNode) (i : Nat) (h : i < l.length) :
    (l ++ m).getD i dummyNode = l.getD i dummyNode := by
  simp [List.getD_eq_getElem?_getD, List.getElem?_append_left h]

theorem getD_append_ge (l m : List SearchNode) (i : Nat) (h : l.length ≤ i) :
    (l ++ m).getD i dummyNode = m.getD (i - l.length) dummyNode := by
  simp [List.getD_eq_getElem?_getD, List.getElem?_append_right h]

theorem getD_set_ne (l : List SearchNode) (i j : Nat) (a : SearchNode) (h : j ≠ i) :
    (l.set j a).getD i dummyNode = l.getD i dummyNode := by
  simp [List.getD_eq_getElem?_getD, List.getElem?_set_ne h]

theorem getD_set_self (l : List SearchNode) (j : Nat) (a : SearchNode) (h : j < l.length) :
    (l.set j a).getD j dummyNode = a := by
  simp [List.getD_eq_getElem?_getD, List.getElem?_set_self, h]


theorem appendChildIdx_length (arena : List SearchNode) (pid nid : Nat) :
    (appendChildIdx arena pid nid).length = arena.length := by
  simp [appendChildIdx]

theorem appendChildIdx_parent_state (arena : List SearchNode) (pid nid i : Nat) :
    ((appendChildIdx arena pid nid).getD i dummyNode).parent =
      (arena.getD i dummyNode).parent ∧
    ((appendChildIdx arena pid nid).getD i dummyNode).system_state =
      (arena.getD i dummyNode).system_state := by
  unfold appendChildIdx
  by_cases h : pid = i
  · subst h
    by_cases hlt : pid < arena.length
    · rw [getD_set_self _ _ _ hlt]
      exact ⟨rfl, rfl⟩
    · rw [List.set_eq_of_length_le (Nat.le_of_not_lt hlt)]
      exact ⟨rfl, rfl⟩
  · rw [getD_set_ne _ _ _ _ h]
    exact ⟨rfl, rfl⟩

/-- What `add_children` does to the arena: it only appends nodes (each with
parent `pid` and one of the candidate states) and only edits the children of
existing nodes; the returned indices address allocated nodes. -/
theorem add_children_spec (pid : Nat) :
    ∀ (states : List State) (arena arena' : List SearchNode) (added : List Nat),
    add_children arena pid states = (arena', added) →
    pid < arena.length →
    arena.length ≤ arena'.length ∧
    (∀ i, i < arena.length →
      ((arena'.getD i dummyNode).parent = (arena.getD i dummyNode).parent ∧
       (arena'.getD i dummyNode).system_state = (arena.getD i dummyNode).system_state)) ∧
    (∀ i, arena.length ≤ i → i < arena'.length →
      ((arena'.getD i dummyNode).parent = some pid ∧
       (arena'.getD i dummyNode).system_state ∈ states)) ∧
    (∀ x ∈ added, x < arena'.length)
  | [], arena, arena', added, h, _ => by
    cases h
    refine ⟨Nat.le_refl _, fun i _ => ⟨rfl, rfl⟩, fun i h1 h2 => absurd h2 (by omega), ?_⟩
    intro x hx
    cases hx
  | st :: rest, arena, arena', added, h, hpid => by
    unfold add_children at h
    by_cases hcond : (!detect_loop arena pid st && !is_child arena pid st) = true
    · rw [if_pos hcond] at h
      dsimp only at h
      generalize hA : appendChildIdx (arena ++ [⟨some pid, st, []⟩]) pid arena.length = A at h
      have hlenA : A.length = arena.length + 1 := by
        rw [← hA, appendChildIdx_length, List.length_append]
        rfl
      have hgetA_lt : ∀ i, i < arena.length →
          (A.getD i dummyNode).parent = (arena.getD i dummyNode).parent ∧
          (A.getD i dummyNode).system_state = (arena.getD i dummyNode).system_state := by
        intro i hi
        rw [← hA]
        have h1 := appendChildIdx_parent_state (arena ++ [⟨some pid, st, []⟩]) pid
          arena.length i
        constructor
        · rw [h1.1, getD_append_lt _ _ _ hi]
        · rw [h1.2, getD_append_lt _ _ _ hi]
      have hgetA_new : (A.getD arena.length dummyNode).parent = some pid ∧
          (A.getD arena.length dummyNode).system_state = st := by
        rw [← hA]
        have h1 := appendChildIdx_parent_state (arena ++ [⟨some pid, st, []⟩]) pid
          arena.length arena.length
        constructor
        · rw [h1.1, getD_append_ge _ _ _ (Nat.le_refl _)]
          simp
        · rw [h1.2, getD_append_ge _ _ _ (Nat.le_refl _)]
          simp
      injection h with h1 h2
      subst h1
      subst h2
      have spec := add_children_spec pid rest A (add_children A pid rest).1
        (add_children A pid rest).2 rfl (by omega)
      refine ⟨by omega, ?_, ?_, ?_⟩
      · intro i hi
        have hb := spec.2.1 i (by omega)
        have ha := hgetA_lt i hi
        exact ⟨hb.1.trans ha.1, hb.2.trans ha.2⟩
      · intro i h1i h2i
        by_cases hc : i < arena.length + 1
        · have hieq : i = arena.length := by omega
          have hb := spec.2.1 i (by omega)
          constructor
          · rw [hb.1, hieq, hgetA_new.1]
          · rw [hb.2, hieq, hgetA_new.2]
            exact List.mem_cons_self st rest
        · have hb := spec.2.2.1 i (by omega) h2i
          exact ⟨hb.1, List.mem_cons_of_mem st hb.2⟩
      · intro x hx
        rcases List.mem_cons.mp hx with hx1 | hx2
        · subst hx1
          omega
        · exact spec.2.2.2 x hx2
    · rw [if_neg hcond] at h
      have spec := add_children_spec pid rest arena arena' added h hpid
      exact ⟨spec.1, spec.2.1,
        fun i h1 h2 => ⟨(spec.2.2.1 i h1 h2).1,
          List.mem_cons_of_mem st (spec.2.2.1 i h1 h2).2⟩,
        spec.2.2.2⟩


theorem form_transitions_allowed (current : State) (s t fac : String) (cap : Nat)
    (rules : List String) (l : List State) (st' : State)
    (h : form_transitions current s t fac cap rules = .ok l) (hmem : st' ∈ l) :
    state_is_allowed st' rules = true := by
  unfold form_transitions at h
  cases h1 : get_new_state current s t [fac] with
  | error e => simp only [h1] at h; cases h
  | ok base =>
    simp only [h1] at h
    cases h2 : dictGetE base s with
    | error e => simp only [h2] at h; cases h
    | ok src =>
      simp only [h2] at h
      exact (formTrialStates_mem base s t rules (combinations src cap) l st' h hmem).1

theorem formAllCaps_allowed (st : State) (s t fac : String) (rules : List String) :
    ∀ (steps : List Nat) (l : List State) (st' : State),
    formAllCaps st s t fac rules steps = .ok l → st' ∈ l →
    state_is_allowed st' rules = true
  | [], l, st', h, hmem => by cases h; cases hmem
  | step :: rest, l, st', h, hmem => by
    unfold formAllCaps at h
    cases h1 : form_transitions st s t fac step rules with
    | error e => simp only [h1] at h; cases h
    | ok found =>
      simp only [h1] at h
      cases h2 : formAllCaps st s t fac rules rest with
      | error e => simp only [h2] at h; cases h
      | ok more =>
        simp only [h2] at h
        cases h
        by_cases hl : 0 < found.length
        · rw [if_pos hl] at hmem
          rcases List.mem_append.mp hmem with hm | hm
          · exact form_transitions_allowed st s t fac step rules found st' h1 hm
          · exact formAllCaps_allowed st s t fac rules rest more st' h2 hm
        · rw [if_neg hl] at hmem
          exact formAllCaps_allowed st s t fac rules rest more st' h2 hmem

theorem form_new_states_allowed (st : State) (fac : String) (cap : Nat)
    (rules : List String) (l : List State) (st' : State)
    (h : form_new_states st fac cap rules = .ok l) (hmem : st' ∈ l) :
    state_is_allowed st' rules = true := by
  unfold form_new_states at h
  cases h1 : get_source_sub_state st fac with
  | error e => simp only [h1] at h; cases h
  | ok source =>
    simp only [h1] at h
    cases h2 : get_target_sub_state st fac with
    | error e => simp only [h2] at h; cases h
    | ok target =>
      simp only [h2] at h
      exact formAllCaps_allowed st source target fac rules (List.range (cap + 1)) l st' h hmem

theorem add_states_as_children_spec (alg : String) (start : State) (rules : List String)
    (arena arena1 : List SearchNode) (tv tv1 : List Nat) (cur : Nat) (ns : List State)
    (h : add_states_as_children alg arena tv cur ns = (arena1, tv1))
    (hcur : cur < arena.length) (htv : ∀ x ∈ tv, x < arena.length)
    (hallowed : ∀ s ∈ ns, state_is_allowed s rules = true)
    (hinv : TreeInv start rules arena) :
    TreeInv start rules arena1 ∧ arena.length ≤ arena1.length ∧
      (∀ x ∈ tv1, x < arena1.length) := by
  unfold add_states_as_children at h
  have hpair : add_children arena cur ns =
      ((add_children arena cur ns).1, (add_children arena cur ns).2) := rfl
  have spec := add_children_spec cur ns arena (add_children arena cur ns).1
    (add_children arena cur ns).2 hpair hcur
  have hlen0 : 0 < arena.length := List.length_pos.mpr hinv.1
  have harena1 : arena1 = (add_children arena cur ns).1 := by
    by_cases halg : alg ≠ "breadth-first"
    · rw [if_pos halg] at h
      exact (Prod.mk.injEq _ _ _ _ ▸ h).1.symm
    · rw [if_neg halg] at h
      exact (Prod.mk.injEq _ _ _ _ ▸ h).1.symm
  have htv1 : ∀ x ∈ tv1, x < (add_children arena cur ns).1.length := by
    by_cases halg : alg ≠ "breadth-first"
    · rw [if_pos halg] at h
      have := (Prod.mk.injEq _ _ _ _ ▸ h).2
      intro x hx
      rw [← this] at hx
      rcases List.mem_append.mp hx with hx1 | hx1
      · exact spec.2.2.2 x (List.mem_reverse.mp hx1)
      · exact Nat.lt_of_lt_of_le (htv x hx1) spec.1
    · rw [if_neg halg] at h
      have := (Prod.mk.injEq _ _ _ _ ▸ h).2
      intro x hx
      rw [← this] at hx
      rcases List.mem_append.mp hx with hx1 | hx1
      · exact Nat.lt_of_lt_of_le (htv x hx1) spec.1
      · exact spec.2.2.2 x hx1
  subst harena1
  refine ⟨⟨List.ne_nil_of_length_pos (Nat.lt_of_lt_of_le hlen0 spec.1), ?_, ?_, ?_⟩,
    spec.1, htv1⟩
  · rw [(spec.2.1 0 hlen0).1]
    exact hinv.2.1
  · rw [(spec.2.1 0 hlen0).2]
    exact hinv.2.2.1
  · intro i hi0 hilen
    by_cases hlt : i < arena.length
    · have hp := spec.2.1 i hlt
      have hold := hinv.2.2.2 i hi0 hlt
      refine ⟨?_, ?_⟩
      · obtain ⟨j, hj, hpar⟩ := hold.1
        exact ⟨j, hj, by rw [hp.1, hpar]⟩
      · rw [hp.2]
        exact hold.2
    · have hp := spec.2.2.1 i (Nat.le_of_not_lt hlt) hilen
      refine ⟨⟨cur, by omega, hp.1⟩, hallowed _ hp.2⟩


/-- The loop preserves the tree and frontier invariants up to its exit. -/
theorem searchLoop_inv (alg : String) (target start : State) (fac : String) (cap : Nat)
    (rules : List String) :
    ∀ (fuel : Nat) (arena arena' : List SearchNode) (tv tv' : List Nat) (cur cur' : Nat),
    TreeInv start rules arena → FrontierInv arena tv cur →
    searchLoop alg target fac cap rules fuel arena tv cur = .ok (arena', tv', cur') →
    TreeInv start rules arena' ∧ FrontierInv arena' tv' cur'
  | 0, arena, arena', tv, tv', cur, cur', hT, hF, h => by
    unfold searchLoop at h
    by_cases hc : (arena.getD cur dummyNode).system_state = target
    · rw [if_pos hc] at h
      injection h with h1
      injection h1 with ha hrest
      injection hrest with htv hcur
      subst ha; subst htv; subst hcur
      exact ⟨hT, hF⟩
    · rw [if_neg hc] at h
      cases h
  | fuel + 1, arena, arena', tv, tv', cur, cur', hT, hF, h => by
    unfold searchLoop at h
    by_cases hc : (arena.getD cur dummyNode).system_state = target
    · rw [if_pos hc] at h
      injection h with h1
      injection h1 with ha hrest
      injection hrest with htv hcur
      subst ha; subst htv; subst hcur
      exact ⟨hT, hF⟩
    · rw [if_neg hc] at h
      cases hfns : form_new_states (arena.getD cur dummyNode).system_state fac cap rules with
      | error e => simp only [hfns] at h; cases h
      | ok ns =>
        simp only [hfns] at h
        have hpair : add_states_as_children alg arena tv cur ns =
            ((add_states_as_children alg arena tv cur ns).1,
             (add_states_as_children alg arena tv cur ns).2) := rfl
        have spec := add_states_as_children_spec alg start rules arena
          (add_states_as_children alg arena tv cur ns).1 tv
          (add_states_as_children alg arena tv cur ns).2 cur ns hpair hF.1 hF.2
          (fun s hs => form_new_states_allowed _ _ _ _ _ _ hfns hs) hT
        cases htv2 : (add_states_as_children alg arena tv cur ns).2 with
        | nil => rw [htv2] at h; cases h
        | cons next rest =>
          rw [htv2] at h
          have hnext : next < (add_states_as_children alg arena tv cur ns).1.length := by
            have := spec.2.2 next
            rw [htv2] at this
            exact this (List.mem_cons_self next rest)
          have hrest : ∀ x ∈ rest, x < (add_states_as_children alg arena tv cur ns).1.length := by
            intro x hx
            have := spec.2.2 x
            rw [htv2] at this
            exact this (List.mem_cons_of_mem next hx)
          exact searchLoop_inv alg target start fac cap rules fuel
            (add_states_as_children alg arena tv cur ns).1 arena' rest tv' next cur'
            spec.1 ⟨hnext, hrest⟩ h


/-- C5 (amended): every NON-root state attached to the search tree during a
search evaluates every configured rule to false on each of its substates'
item sets; the root (index 0) is excluded because `search` attaches the start
state without any rule check (see the counterexample theorem). -/
theorem search_tree_nonroot_states_satisfy_rules (algorithm : String)
    (start_state target_state : State) (transition_facilitator : String)
    (max_transition_capacity : Nat) (disallowed_transition_rules : List String)
    (fuel : Nat) (arena' : List SearchNode) (tv' : List Nat) (final : Nat)
    (h : searchLoop algorithm target_state transition_facilitator max_transition_capacity
      disallowed_transition_rules fuel [⟨none, start_state, []⟩] [0] 0 =
      .ok (arena', tv', final)) :
    ∀ i, 0 < i → i < arena'.length →
      state_is_allowed (arena'.getD i dummyNode).system_state
        disallowed_transition_rules = true := by
  have hT : TreeInv start_state disallowed_transition_rules [⟨none, start_state, []⟩] :=
    ⟨by simp, rfl, rfl, fun i hi0 hilen => by simp at hilen; omega⟩
  have hF : FrontierInv [⟨none, start_state, []⟩] [0] 0 :=
    ⟨by simp, fun x hx => by cases hx with
      | head => simp
      | tail _ hx2 => cases hx2⟩
  have inv := searchLoop_inv algorithm target_state start_state transition_facilitator
    max_transition_capacity disallowed_transition_rules fuel
    [⟨none, start_state, []⟩] arena' [0] tv' 0 final hT hF h
  exact fun i hi0 hilen => (inv.1.2.2.2 i hi0 hilen).2

theorem search_tree_nonroot_states_satisfy_rules_witness :
    state_is_allowed (arenaB.getD 1 dummyNode).system_state [] = true :=
  search_tree_nonroot_states_satisfy_rules "depth-first" stBoat1 stBoat2 "boat" 0 [] 2
    arenaB [0] 1 (by decide) 1 (by decide) (by decide)

/-- Walking parent references: under the tree invariant the path from any
node is nonempty, starts at that node's state and ends at the root's state. -/
theorem getStatePathAux_spec (start : State) (rules : List String)
    (arena : List SearchNode) (hinv : TreeInv start rules arena) :
    ∀ i, i < arena.length → ∀ fuel, i + 1 ≤ fuel →
    (getStatePathAux arena fuel (some i)).head? =
      some ((arena.getD i dummyNode).system_state) ∧
    (getStatePathAux arena fuel (some i)).getLast? = some start := by
  intro i
  induction i using Nat.strong_induction_on with
  | _ i ih =>
    intro hilen fuel hfuel
    match fuel, hfuel with
    | f + 1, _ =>
      rw [getStatePathAux]
      by_cases hi0 : 0 < i
      · obtain ⟨⟨j, hj, hpar⟩, _⟩ := hinv.2.2.2 i hi0 hilen
        rw [hpar]
        have hrec := ih j hj (by omega) f (by omega)
        refine ⟨rfl, ?_⟩
        cases hpath : getStatePathAux arena f (some j) with
        | nil => rw [hpath] at hrec; cases hrec.1
        | cons y ys =>
          rw [hpath] at hrec
          rw [List.getLast?_cons_cons]
          exact hrec.2
      · have hieq : i = 0 := by omega
        subst hieq
        rw [hinv.2.1]
        rw [getStatePathAux]
        exact ⟨rfl, by rw [hinv.2.2.1]; rfl⟩

/-- C3 (amended): every successful search returns a nonempty path ordered
from goal to start — its first element is the goal state and its last element
is the start state (the root); the start-to-goal presentation is produced by
the out-of-core caller, which reverses the list. -/
theorem search_success_path_goal_to_start (algorithm : String)
    (start_state target_state : State) (transition_facilitator : String)
    (max_transition_capacity : Nat) (disallowed_transition_rules : List String)
    (fuel : Nat) (p : List State)
    (h : search algorithm start_state target_state transition_facilitator
      max_transition_capacity disallowed_transition_rules fuel = .ok (some p)) :
    p ≠ [] ∧ p.head? = some target_state ∧ p.getLast? = some start_state := by
  unfold search at h
  cases hsl : searchLoop algorithm target_state transition_facilitator
      max_transition_capacity disallowed_transition_rules fuel
      [⟨none, start_state, []⟩] [0] 0 with
  | error e => rw [hsl] at h; cases h
  | ok res =>
    rw [hsl] at h
    by_cases hif : (res.1.getD res.2.2 dummyNode).system_state = target_state
    · simp only [if_pos hif] at h
      injection h with h1
      injection h1 with h2
      have hT : TreeInv start_state disallowed_transition_rules
          [⟨none, start_state, []⟩] :=
        ⟨by simp, rfl, rfl, fun i hi0 hilen => by simp at hilen; omega⟩
      have hF : FrontierInv [⟨none, start_state, []⟩] [0] 0 :=
        ⟨by simp, fun x hx => by cases hx with
          | head => simp
          | tail _ hx2 => cases hx2⟩
      have inv := searchLoop_inv algorithm target_state start_state
        transition_facilitator max_transition_capacity disallowed_transition_rules fuel
        [⟨none, start_state, []⟩] res.1 [0] res.2.1 0 res.2.2 hT hF (by rw [hsl])
      have hspec := getStatePathAux_spec start_state disallowed_transition_rules res.1
        inv.1 res.2.2 inv.2.1 res.1.length inv.2.1
      rw [← h2]
      unfold get_state_path
      refine ⟨?_, ?_, hspec.2⟩
      · intro hnil
        rw [hnil] at hspec
        cases hspec.1
      · rw [hspec.1, hif]
    · simp only [if_neg hif] at h
      injection h with h1
      cases h1

theorem search_success_path_goal_to_start_witness :
    ([stBoat2, stBoat1] : List State) ≠ [] ∧
    ([stBoat2, stBoat1] : List State).head? = some stBoat2 ∧
    ([stBoat2, stBoat1] : List State).getLast? = some stBoat1 :=
  search_success_path_goal_to_start "depth-first" stBoat1 stBoat2 "boat" 0 [] 2
    [stBoat2, stBoat1] (by decide)


theorem isWordBang_not_space (c : Char) (h : isWordBang c = true) : pyIsSpace c = false := by
  by_cases hs : pyIsSpace c = true
  · simp only [pyIsSpace, Bool.or_eq_true, decide_eq_true_eq] at hs
    rcases hs with ((((h1 | h1) | h1) | h1) | h1) | h1 <;> subst h1 <;>
      exact absurd h (by decide)
  · exact Bool.eq_false_iff.mpr hs

theorem isWordBang_ne_lparen (c : Char) (h : isWordBang c = true) : c ≠ '(' := by
  intro he
  subst he
  exact absurd h (by decide)

theorem findallParenF_eq_nil :
    ∀ (fuel : Nat) (l : List Char), (∀ c ∈ l, c ≠ '(') → findallParenF fuel l = []
  | _, [], _ => by cases ‹Nat› <;> rfl
  | 0, _ :: _, _ => rfl
  | fuel + 1, c :: rest, h => by
    unfold findallParenF
    rw [if_neg (h c (List.mem_cons_self c rest))]
    exact findallParenF_eq_nil fuel rest (fun x hx => h x (List.mem_cons_of_mem c hx))

theorem get_sub_rules_eq_nil (s : String) (h : ∀ c ∈ s.data, c ≠ '(') :
    get_sub_rules s = [] := by
  unfold get_sub_rules
  have hfl : ((List.range s.length).map
      (fun start => findallParen (s.data.drop start))).flatten = [] := by
    apply List.flatten_eq_nil_iff.mpr
    intro x hx
    rcases List.mem_map.mp hx with ⟨start, _, heq⟩
    rw [← heq]
    exact findallParenF_eq_nil _ _ (fun c hc => h c (List.mem_of_mem_drop hc))
  rw [hfl]
  rfl

theorem andTail_false_of_absent (t : List Char)
    (h : ¬([' ', 'A', 'N', 'D', ' '] <+: t)) : andTail t = false := by
  unfold andTail
  cases hp : ([' ', 'A', 'N', 'D', ' ']).isPrefixOf t with
  | false => rfl
  | true => exact absurd (List.isPrefixOf_iff_prefix.mp hp) h

theorem matchAndAt_eq_none (l : List Char)
    (h : ∀ k, andTail (l.drop k) = false) : matchAndAt l = none := by
  unfold matchAndAt
  have hfil : ((List.range ((l.takeWhile isWordBang).length + 1)).filter
      (fun k => decide (1 ≤ k) && andTail (l.drop k))) = [] := by
    apply List.filter_eq_nil_iff.mpr
    intro k _
    rw [h k]
    simp
  rw [hfil]
  rfl

theorem searchAnd_eq_none :
    ∀ (l : List Char), (∀ j, andTail (l.drop j) = false) → searchAnd l = none
  | [], _ => rfl
  | c :: rest, h => by
    unfold searchAnd
    rw [matchAndAt_eq_none (c :: rest) h]
    exact searchAnd_eq_none rest (fun j => h (j + 1))

theorem orTail_front (t : List Char) (h : orTail t = true) :
    [' ', 'O', 'R', ' '] <+: t := by
  unfold orTail at h
  simp only [Bool.and_eq_true] at h
  exact List.isPrefixOf_iff_prefix.mp h.1

theorem takeWhile_getElem? (p : Char → Bool) (l : List Char) (i : Nat)
    (h : i < (l.takeWhile p).length) : ∃ c, l[i]? = some c ∧ p c = true := by
  obtain ⟨c, hc⟩ : ∃ c, (l.takeWhile p)[i]? = some c :=
    ⟨(l.takeWhile p)[i], List.getElem?_eq_getElem h⟩
  refine ⟨c, ?_, List.mem_takeWhile_imp (List.getElem?_mem hc)⟩
  obtain ⟨t, ht⟩ := @List.takeWhile_prefix _ l p
  rw [← ht]
  rw [List.getElem?_append_left h] at *
  exact hc

theorem matchOrAt_eq_none (l : List Char)
    (h : ∀ k, 1 ≤ k → k ≤ (l.takeWhile pyIsSpace).length → orTail (l.drop k) = false) :
    matchOrAt l = none := by
  unfold matchOrAt
  have hfil : ((List.range ((l.takeWhile pyIsSpace).length + 1)).filter
      (fun k => decide (1 ≤ k) && orTail (l.drop k))) = [] := by
    apply List.filter_eq_nil_iff.mpr
    intro k hk
    by_cases h1 : 1 ≤ k
    · rw [h k h1 (by have := List.mem_range.mp hk; omega)]
      simp
    · simp [h1]
  rw [hfil]
  rfl

theorem searchOr_eq_none :
    ∀ (l : List Char),
    (∀ m, 1 ≤ m → orTail (l.drop m) = true →
      ∀ c, l[m - 1]? = some c → pyIsSpace c = false) →
    searchOr l = none
  | [], _ => rfl
  | x :: rest, h => by
    unfold searchOr
    have hmat : matchOrAt (x :: rest) = none := by
      apply matchOrAt_eq_none
      intro k hk1 hkle
      cases hot : orTail ((x :: rest).drop k) with
      | false => rfl
      | true =>
        obtain ⟨c, hc, hcp⟩ := takeWhile_getElem? pyIsSpace (x :: rest) (k - 1) (by omega)
        have := h k hk1 hot c hc
        rw [this] at hcp
        cases hcp
    rw [hmat]
    apply searchOr_eq_none
    intro m hm1 hot c hc
    have : (x :: rest).drop (m + 1) = rest.drop m := rfl
    refine h (m + 1) (by omega) (by rw [this]; exact hot) c ?_
    have h2 : (x :: rest)[m + 1 - 1]? = rest[m - 1]? := by
      cases m with
      | zero => omega
      | succ m' =>
        show (x :: rest)[m' + 1]? = rest[m']?
        exact List.getElem?_cons_succ
    rw [h2]
    exact hc


theorem evaluate_rule_eq_false_of (rule : String) (testlist : List String)
    (hsubs : get_sub_rules rule = [])
    (hand : searchAnd rule.data = none)
    (hor : searchOr rule.data = none) :
    evaluate_rule rule testlist = false := by
  unfold evaluate_rule
  cases hlen : rule.length with
  | zero => rfl
  | succ n =>
    rw [evalRuleF, hsubs]
    rw [List.foldl_nil]
    rw [hand, hor]

theorem word_only_rule_evaluates_false (t : String) (testlist : List String)
    (hne : t.data ≠ []) (hw : ∀ c ∈ t.data, isWordBang c = true) :
    evaluate_rule t testlist = false := by
  apply evaluate_rule_eq_false_of
  · exact get_sub_rules_eq_nil t (fun c hc => isWordBang_ne_lparen c (hw c hc))
  · apply searchAnd_eq_none
    intro j
    apply andTail_false_of_absent
    intro hpre
    obtain ⟨r, hr⟩ := hpre
    have hsp : ' ' ∈ t.data.drop j := by
      rw [← hr]
      exact List.mem_append.mpr (Or.inl (List.mem_cons_self _ _))
    exact absurd (hw ' ' (List.mem_of_mem_drop hsp)) (by decide)
  · apply searchOr_eq_none
    intro m _ hot c _
    obtain ⟨r, hr⟩ := orTail_front _ hot
    have hsp : ' ' ∈ t.data.drop m := by
      rw [← hr]
      exact List.mem_append.mpr (Or.inl (List.mem_cons_self _ _))
    exact absurd (hw ' ' (List.mem_of_mem_drop hsp)) (by decide)

theorem prefix_getElem? (p t : List Char) (h : p <+: t) (i : Nat) (hi : i < p.length) :
    t[i]? = p[i]? := by
  obtain ⟨r, hr⟩ := h
  rw [← hr, List.getElem?_append_left hi]

theorem space_pos (A B : List Char) (hA : ∀ c ∈ A, isWordBang c = true)
    (hB : ∀ c ∈ B, isWordBang c = true) (m : Nat)
    (h : (A ++ ([' ', 'O', 'R', ' '] ++ B))[m]? = some ' ') :
    m = A.length ∨ m = A.length + 3 := by
  by_cases hlt : m < A.length
  · rw [List.getElem?_append_left hlt] at h
    exact absurd (hA ' ' (List.getElem?_mem h)) (by decide)
  · rw [List.getElem?_append_right (Nat.le_of_not_lt hlt)] at h
    by_cases h4 : m - A.length < 4
    · have hc : m - A.length = 0 ∨ m - A.length = 1 ∨ m - A.length = 2 ∨
          m - A.length = 3 := by omega
      rcases hc with h0 | h0 | h0 | h0 <;> rw [h0] at h
      · left; omega
      · rw [List.getElem?_append_left (by norm_num)] at h
        simp at h
      · rw [List.getElem?_append_left (by norm_num)] at h
        simp at h
      · right; omega
    · rw [List.getElem?_append_right (by simp; omega)] at h
      exact absurd (hB ' ' (List.getElem?_mem h)) (by decide)

theorem and_lit_absent (A B : List Char) (hA : ∀ c ∈ A, isWordBang c = true)
    (hB : ∀ c ∈ B, isWordBang c = true) (j : Nat) :
    ¬([' ', 'A', 'N', 'D', ' '] <+: (A ++ ([' ', 'O', 'R', ' '] ++ B)).drop j) := by
  intro hpre
  have h0 : (A ++ ([' ', 'O', 'R', ' '] ++ B))[j]? = some ' ' := by
    have := prefix_getElem? _ _ hpre 0 (by norm_num)
    rw [List.getElem?_drop] at this
    simpa using this
  rcases space_pos A B hA hB j h0 with hj | hj
  · have h1 : (A ++ ([' ', 'O', 'R', ' '] ++ B))[j + 1]? = some 'A' := by
      have := prefix_getElem? _ _ hpre 1 (by norm_num)
      rw [List.getElem?_drop] at this
      simpa using this
    rw [hj, List.getElem?_append_right (by omega)] at h1
    have he : A.length + 1 - A.length = 1 := by omega
    rw [he, List.getElem?_append_left (by norm_num)] at h1
    simp at h1
  · have h4 : (A ++ ([' ', 'O', 'R', ' '] ++ B))[j + 4]? = some ' ' := by
      have := prefix_getElem? _ _ hpre 4 (by norm_num)
      rw [List.getElem?_drop] at this
      simpa using this
    rw [hj, List.getElem?_append_right (by omega)] at h4
    have he : A.length + 3 + 4 - A.length = 7 := by omega
    rw [he, List.getElem?_append_right (by simp)] at h4
    have he2 : (7 : Nat) - ([' ', 'O', 'R', ' '] : List Char).length = 3 := by simp
    rw [he2] at h4
    exact absurd (hB ' ' (List.getElem?_mem h4)) (by decide)

theorem or_mid_not_space_before (A B : List Char) (hAne : A ≠ [])
    (hA : ∀ c ∈ A, isWordBang c = true) (hB : ∀ c ∈ B, isWordBang c = true) :
    searchOr (A ++ ([' ', 'O', 'R', ' '] ++ B)) = none := by
  apply searchOr_eq_none
  intro m hm1 hot c hc
  have h0 : (A ++ ([' ', 'O', 'R', ' '] ++ B))[m]? = some ' ' := by
    have := prefix_getElem? _ _ (orTail_front _ hot) 0 (by norm_num)
    rw [List.getElem?_drop] at this
    simpa using this
  rcases space_pos A B hA hB m h0 with hm | hm
  · rw [hm] at hc
    have hAl : A.length - 1 < A.length := by
      have := List.length_pos.mpr hAne
      omega
    rw [List.getElem?_append_left hAl] at hc
    exact isWordBang_not_space c (hA c (List.getElem?_mem hc))
  · rw [hm] at hc
    rw [List.getElem?_append_right (by omega)] at hc
    have he : A.length + 3 - 1 - A.length = 2 := by omega
    rw [he, List.getElem?_append_left (by norm_num)] at hc
    have : c = 'R' := by
      have h2 : ([' ', 'O', 'R', ' '] : List Char)[2]? = some 'R' := rfl
      rw [h2] at hc
      exact (Option.some.injEq _ _ ▸ hc).symm
    rw [this]
    decide

/-- C4 (amended): for word-shaped operands (covering the literals, bare item
tokens and negated tokens of the claim), `a OR b` evaluates to `false` for
every item set: the OR pattern's operand groups match only whitespace. -/
theorem or_rule_word_operands_evaluate_false (a b : String) (testlist : List String)
    (ha : a.data ≠ []) (hwa : ∀ c ∈ a.data, isWordBang c = true)
    (hb : b.data ≠ []) (hwb : ∀ c ∈ b.data, isWordBang c = true) :
    evaluate_rule (a ++ " OR " ++ b) testlist = false := by
  have hdata : (a ++ " OR " ++ b).data = a.data ++ ([' ', 'O', 'R', ' '] ++ b.data) := by
    rw [String.data_append, String.data_append, List.append_assoc]
  apply evaluate_rule_eq_false_of
  · apply get_sub_rules_eq_nil
    intro c hc
    rw [hdata] at hc
    rcases List.mem_append.mp hc with hc1 | hc1
    · exact isWordBang_ne_lparen c (hwa c hc1)
    · rcases List.mem_append.mp hc1 with hc2 | hc2
      · intro he
        subst he
        exact absurd hc2 (by decide)
      · exact isWordBang_ne_lparen c (hwb c hc2)
  · rw [hdata]
    exact searchAnd_eq_none _ (fun j =>
      andTail_false_of_absent _ (and_lit_absent a.data b.data hwa hwb j))
  · rw [hdata]
    exact or_mid_not_space_before a.data b.data ha hwa hwb


/-- C10 (amended): a rule consisting of a single word-shaped token (covering
bare item tokens, negated tokens and the literals) evaluates to false for
every item set — in particular a bare item token evaluates to false even when
the item is present, and the bare literal "True" evaluates to false. -/
theorem bare_token_rule_evaluates_false (t : String) (testlist : List String)
    (hne : t.data ≠ []) (hw : ∀ c ∈ t.data, isWordBang c = true) :
    evaluate_rule t testlist = false ∧ evaluate_rule "True" testlist = false :=
  ⟨word_only_rule_evaluates_false t testlist hne hw,
   word_only_rule_evaluates_false "True" testlist (by decide) (by decide)⟩

/-- C10 witness: the token "goose" with the item present, and bare "True". -/
theorem bare_token_rule_evaluates_false_witness :
    evaluate_rule "goose" ["goose"] = false ∧ evaluate_rule "True" ["goose"] = false :=
  bare_token_rule_evaluates_false "goose" ["goose"] (by decide) (by decide)

/-- C4 witness: literal operands, empty item set. -/
theorem or_rule_word_operands_evaluate_false_witness :
    evaluate_rule ("True" ++ " OR " ++ "False") [] = false :=
  or_rule_word_operands_evaluate_false "True" "False" []
    (by decide) (by decide) (by decide) (by decide)

/-- C8 witness: a boat-and-fox bank, capacity 0: only the boat moves. -/
theorem capacity_zero_single_candidate_witness :
    form_new_states [("bank1", ["boat", "fox"]), ("bank2", [])] "boat" 0 [] =
      .ok [[("bank1", ["fox"]), ("bank2", ["boat"])]] :=
  capacity_zero_single_candidate "bank1" "bank2" "boat" ["boat", "fox"] [] []
    (by decide) (Or.inl (by decide))
    [("bank1", ["fox"]), ("bank2", ["boat"])] (by decide) (by decide)

end Solver
